import Mathlib

set_option maxRecDepth 10000

/-!
Verification of the telepresenceio/dlib process-execution and logging
specification against a shallow embedding of the Go sources.

Sources embedded:
- dexec/cmd_windows.go        (canInterrupt)
- internal/sigint/sigint_windows.go (SendInterrupt)
- dlog/split_logger.go        (splitLogger)
- dlog/logger_logrus.go       (logrusLevel, MaxLevel, getCaller, caller hook)

The process-handle / escalation-controller parts (ProcessHandle.Wait, the
escalation state machine) are not among the provided sources; those are
modelled from the specification text, as marked on each definition.
-/

/-! ## dexec/cmd_windows.go -/

/-- The Windows process-creation flag `windows.CREATE_NEW_PROCESS_GROUP`. -/
def CREATE_NEW_PROCESS_GROUP : Nat := 0x200

/-- Embedding of `syscall.SysProcAttr` restricted to the field the code reads. -/
structure SysProcAttr where
  CreationFlags : Nat
deriving DecidableEq

/-- Embedding of the underlying `os/exec.Cmd`; its fields are irrelevant to
`canInterrupt`, only nil-ness matters. -/
structure OsExecCmd where
  mk' ::
deriving DecidableEq

/-- Embedding of `dexec.Cmd`: the wrapper holds a (nilable) underlying
`os/exec.Cmd` and a (nilable) `SysProcAttr`. -/
structure CmdData where
  Cmd : Option OsExecCmd
  SysProcAttr : Option SysProcAttr
deriving DecidableEq

/-- Embedding of `(c *Cmd) canInterrupt()` from dexec/cmd_windows.go.
The Go receiver is nilable, hence `Option CmdData`. -/
def canInterrupt (c : Option CmdData) : Bool :=
  match c with
  | none => false
  | some c =>
    match c.Cmd with
    | none => false
    | some _ =>
      match c.SysProcAttr with
      | none => false
      | some a => (a.CreationFlags &&& CREATE_NEW_PROCESS_GROUP) != 0

/-! ## internal/sigint/sigint_windows.go -/

/-- The Windows console control event `windows.CTRL_BREAK_EVENT`. -/
def CTRL_BREAK_EVENT : Nat := 1

/-- A platform (errno-style) error returned by a Windows API call. -/
structure PlatformError where
  code : Nat
deriving DecidableEq

/-- Embedding of `os.SyscallError`: the wrapped error plus the name of the
failing syscall. -/
structure SyscallError where
  Syscall : String
  Err : PlatformError
deriving DecidableEq

/-- Embedding of `os.Process` restricted to the field the code reads. -/
structure OsProcess where
  Pid : Nat
deriving DecidableEq

/-- Embedding of `sigint.SendInterrupt` from internal/sigint/sigint_windows.go.
The platform call `windows.GenerateConsoleCtrlEvent` is abstracted as the
oracle `gen : event → pid → Option PlatformError` (`none` = success); the
embedding records exactly which event and pid the code passes to it. -/
def SendInterrupt (gen : Nat → Nat → Option PlatformError) (proc : OsProcess) :
    Option SyscallError :=
  match gen CTRL_BREAK_EVENT proc.Pid with
  | some e => some { Syscall := "GenerateConsoleCtrlEvent", Err := e }
  | none => none

/-! ## dlog log levels (part_000 / logger.go) -/

/-- `dlog.LogLevelError` (LogLevel is a Go uint32, embedded as Nat). -/
def LogLevelError : Nat := 0

/-- `dlog.LogLevelWarn`. -/
def LogLevelWarn : Nat := 1

/-- `dlog.LogLevelInfo`. -/
def LogLevelInfo : Nat := 2

/-- `dlog.LogLevelDebug`. -/
def LogLevelDebug : Nat := 3

/-- `dlog.LogLevelTrace`. -/
def LogLevelTrace : Nat := 4

/-! ## dlog/logger_logrus.go -/

/-- `logrus.ErrorLevel` (logrus.Level is a Go uint32: Panic=0, Fatal=1, ...). -/
def logrusErrorLevel : Nat := 2

/-- `logrus.WarnLevel`. -/
def logrusWarnLevel : Nat := 3

/-- `logrus.InfoLevel`. -/
def logrusInfoLevel : Nat := 4

/-- `logrus.DebugLevel`. -/
def logrusDebugLevel : Nat := 5

/-- `logrus.TraceLevel`. -/
def logrusTraceLevel : Nat := 6

/-- Embedding of the array `dlogLevel2logrusLevel` from dlog/logger_logrus.go. -/
def dlogLevel2logrusLevel : List Nat :=
  [logrusErrorLevel, logrusWarnLevel, logrusInfoLevel, logrusDebugLevel, logrusTraceLevel]

/-- Embedding of `logrusLevel` from dlog/logger_logrus.go: the panic branch
(`level > LogLevelTrace`) is embedded as `none`; otherwise the array lookup. -/
def logrusLevel (level : Nat) : Option Nat :=
  if LogLevelTrace < level then none
  else dlogLevel2logrusLevel[level]?

/-- Embedding of the dynamic type of `logrusWrapper.loggerOrEntry` as far as
`MaxLevel` inspects it: a `*logrus.Logger` carries its own level, a
`*logrus.Entry` carries its parent logger's level; in both cases `MaxLevel`
reads `ll.GetLevel()`. -/
inductive LoggerOrEntry where
  | logger (level : Nat)
  | entry (loggerLevel : Nat)
deriving DecidableEq

/-- The level `MaxLevel` extracts from the underlying logrus object
(`ll.GetLevel()` after the type switch). -/
def GetLevel : LoggerOrEntry → Nat
  | .logger l => l
  | .entry l => l

/-- Embedding of `logrusWrapper.MaxLevel` from dlog/logger_logrus.go: scan
`dlogLevel2logrusLevel` for the first index holding the logrus level; the
final panic (level not in the table) is embedded as `none`. -/
def MaxLevel (w : LoggerOrEntry) : Option Nat :=
  dlogLevel2logrusLevel.findIdx? (fun lv => lv == GetLevel w)

/-! ## dlog/logger_logrus.go: caller attribution (getCaller, hook) -/

/-- The constant `dlogPackageDot` from dlog/logger_logrus.go. -/
def dlogPackageDot : String := "github.com/telepresenceio/dlib/v2/dlog."

/-- The constant `logrusPackageDot` from dlog/logger_logrus.go. -/
def logrusPackageDot : String := "github.com/sirupsen/logrus."

/-- Embedding of Go's `strings.HasPrefix s pre`: the characters of `pre` are
an initial segment of the characters of `s` (for valid UTF-8 strings this
coincides with Go's byte-wise test). -/
def HasPrefixGo (s pre : String) : Bool :=
  pre.data.isPrefixOf s.data

/-- Embedding of `runtime.Frame` restricted to the field the code reads. -/
structure Frame where
  Function : String
deriving DecidableEq

/-- Embedding of `getCaller` from dlog/logger_logrus.go over the captured
stack (the frames from depth `minimumCallerDepth`, innermost first). The Go
loop `for f, again := frames.Next(); again; …` never runs its body on the
final frame (which `runtime.Frames.Next` returns with `more == false`), so a
one-frame remainder yields nil. Frames whose function name has the logrus or
dlog package-name prelude are skipped; the first other frame is returned. -/
def getCaller : List Frame → Option Frame
  | [] => none
  | [_] => none
  | f :: g :: rest =>
    if HasPrefixGo f.Function logrusPackageDot then getCaller (g :: rest)
    else if HasPrefixGo f.Function dlogPackageDot then getCaller (g :: rest)
    else some f

/-- Embedding of `logrus.Entry` restricted to the field the hook touches. -/
structure LogrusEntry where
  Caller : Option Frame
deriving DecidableEq

/-- Embedding of `logrusFixCallerHook.Fire` from dlog/logger_logrus.go:
when logrus attributed the entry to a function inside the dlog package, the
caller is recomputed with `getCaller` over the current stack. -/
def logrusFixCallerHookFire (stack : List Frame) (entry : LogrusEntry) : LogrusEntry :=
  match entry.Caller with
  | some c =>
    if HasPrefixGo c.Function dlogPackageDot then { entry with Caller := getCaller stack }
    else entry
  | none => entry

/-! ## dlog/split_logger.go -/

/-- Observable call made on a sub-logger of the split logger. -/
inductive SEvent where
  | log (level : Nat) (args : List String)
  | logf (level : Nat) (format : String) (args : List String)
  | logln (level : Nat) (args : List String)
  | stdLogger (level : Nat)
deriving DecidableEq

/-- A `GenericLogger` observed as a sink: its structured fields and the trace
of calls made on it. -/
structure TraceLogger where
  fields : List (String × String)
  events : List SEvent
deriving DecidableEq

/-- The sub-logger `Log` method, as a trace extension. -/
def tlLog (t : TraceLogger) (level : Nat) (args : List String) : TraceLogger :=
  { t with events := t.events ++ [.log level args] }

/-- The sub-logger `Logf` method, as a trace extension. -/
def tlLogf (t : TraceLogger) (level : Nat) (format : String) (args : List String) :
    TraceLogger :=
  { t with events := t.events ++ [.logf level format args] }

/-- The sub-logger `Logln` method, as a trace extension. -/
def tlLogln (t : TraceLogger) (level : Nat) (args : List String) : TraceLogger :=
  { t with events := t.events ++ [.logln level args] }

/-- The sub-logger `StdLogger` method, as a trace extension. -/
def tlStdLogger (t : TraceLogger) (level : Nat) : TraceLogger :=
  { t with events := t.events ++ [.stdLogger level] }

/-- The sub-logger `WithField` method. -/
def tlWithField (t : TraceLogger) (k v : String) : TraceLogger :=
  { t with fields := t.fields ++ [(k, v)] }

/-- Embedding of `splitLogger` from dlog/split_logger.go: the two sub-loggers. -/
structure SplitState where
  outLog : TraceLogger
  errLog : TraceLogger
deriving DecidableEq

/-- Which sub-logger a dispatch targets. -/
inductive SubSel where
  | out
  | err
deriving DecidableEq

/-- Embedding of `splitLogger.levelLogger`: `errLog` when the level is
`LogLevelError`, `outLog` otherwise. -/
def levelLogger (level : Nat) : SubSel :=
  if level = LogLevelError then .err else .out

/-- Apply a sub-logger method to the selected sub-logger. -/
def atSel (l : SplitState) (s : SubSel) (f : TraceLogger → TraceLogger) : SplitState :=
  match s with
  | .err => { l with errLog := f l.errLog }
  | .out => { l with outLog := f l.outLog }

/-- Embedding of `splitLogger.Log`. -/
def splitLog (l : SplitState) (level : Nat) (args : List String) : SplitState :=
  atSel l (levelLogger level) (fun t => tlLog t level args)

/-- Embedding of `splitLogger.Logf`. -/
def splitLogf (l : SplitState) (level : Nat) (format : String) (args : List String) :
    SplitState :=
  atSel l (levelLogger level) (fun t => tlLogf t level format args)

/-- Embedding of `splitLogger.Logln`. -/
def splitLogln (l : SplitState) (level : Nat) (args : List String) : SplitState :=
  atSel l (levelLogger level) (fun t => tlLogln t level args)

/-- Embedding of `splitLogger.LogMessage`: it calls `Log` on the selected
sub-logger with the message as single argument. -/
def splitLogMessage (l : SplitState) (level : Nat) (message : String) : SplitState :=
  atSel l (levelLogger level) (fun t => tlLog t level [message])

/-- Embedding of `splitLogger.StdLogger`: the selected sub-logger's
`StdLogger` is invoked at the same level. -/
def splitStdLogger (l : SplitState) (level : Nat) : SplitState :=
  atSel l (levelLogger level) (fun t => tlStdLogger t level)

/-- Embedding of `splitLogger.WithField`: the field is applied to both
sub-loggers. -/
def splitWithField (l : SplitState) (k v : String) : SplitState :=
  { outLog := tlWithField l.outLog k v, errLog := tlWithField l.errLog k v }

/-! ## Spec-modelled: ProcessHandle.Wait join (spec sections 4.3 and 5) -/

/-- Modelled from the spec: the observable flags of a ProcessHandle — whether
the process has exited, whether each stdio-relay task (stdout, stderr) has
finished draining, and whether `Wait()` has returned. The concrete
`ProcessHandle`/`Wait` implementation is not among the provided sources. -/
structure HandleState where
  processExited : Bool
  stdoutRelayDone : Bool
  stderrRelayDone : Bool
  waitReturned : Bool
deriving DecidableEq

/-- The state in which the handle starts: process running, relays active,
`Wait` not yet returned. -/
def handleInit : HandleState :=
  { processExited := false, stdoutRelayDone := false, stderrRelayDone := false,
    waitReturned := false }

/-- Modelled from the spec: the events of the handle's lifetime under any
interleaving — the process exits, a relay task finishes, or `Wait` returns;
per the spec, `Wait()` blocks until the process has exited AND all
stdio-relay tasks have finished, which is the guard on `waitReturn`. -/
inductive HandleStep : HandleState → HandleState → Prop where
  | processExit (s : HandleState) : HandleStep s { s with processExited := true }
  | stdoutDone (s : HandleState) : HandleStep s { s with stdoutRelayDone := true }
  | stderrDone (s : HandleState) : HandleStep s { s with stderrRelayDone := true }
  | waitReturn (s : HandleState) (h1 : s.processExited = true)
      (h2 : s.stdoutRelayDone = true) (h3 : s.stderrRelayDone = true) :
      HandleStep s { s with waitReturned := true }

/-- The states a ProcessHandle can actually be in: those reachable from
`handleInit` by `HandleStep` events. -/
inductive HandleReachable : HandleState → Prop where
  | init : HandleReachable handleInit
  | step {s t : HandleState} : HandleReachable s → HandleStep s t → HandleReachable t

/-! ## Spec-modelled: escalation-controller state machine (spec sections 3, 4.4, 5) -/

/-- Modelled from the spec: the lifecycle states of a RunningProcess /
EscalationController — `Created → Running → {Exited | Killed | Errored}`
(terminal), each terminal then reaped; `InterruptSent` is the intermediate
controller state after a soft interrupt. The concrete controller is not
among the provided sources. -/
inductive PState where
  | created
  | running
  | interruptSent
  | killed
  | exitedNaturally
  | errored
  | reaped
deriving DecidableEq, Fintype

/-- Modelled from the spec: the allowed transitions — `Running →
InterruptSent → Killed → Reaped`, or `Running → ExitedNaturally → Reaped`;
a process may also exit during the grace period after the interrupt
("cancelled and complied"), be killed directly when `canInterrupt` is false,
or error; each terminal state is reaped exactly once. -/
def pstep : PState → PState → Bool
  | .created, .running => true
  | .running, .interruptSent => true
  | .running, .exitedNaturally => true
  | .running, .killed => true
  | .running, .errored => true
  | .interruptSent, .exitedNaturally => true
  | .interruptSent, .killed => true
  | .killed, .reaped => true
  | .exitedNaturally, .reaped => true
  | .errored, .reaped => true
  | _, _ => false

/-- Upper bound on how many further entries into `interruptSent` a lifecycle
can make from a given state. -/
def bInt : PState → Nat
  | .created => 1
  | .running => 1
  | _ => 0

/-- Upper bound on how many further entries into `killed` a lifecycle can
make from a given state. -/
def bKill : PState → Nat
  | .created => 1
  | .running => 1
  | .interruptSent => 1
  | _ => 0

/-- Upper bound on how many further entries into any terminal state
(`killed`, `exitedNaturally`, `errored`) a lifecycle can make from a given
state. -/
def bTerm : PState → Nat
  | .created => 1
  | .running => 1
  | .interruptSent => 1
  | _ => 0

/-- Upper bound on how many further entries into `reaped` (the point at
which OS resources are released) a lifecycle can make from a given state. -/
def bReap : PState → Nat
  | .reaped => 0
  | _ => 1

/-- A lifecycle history of a RunningProcess: consecutive states related by
`pstep`. -/
def ValidPath (l : List PState) : Prop :=
  List.Chain' (fun a b => pstep a b = true) l

/-- How many times a history enters each of the three terminal states. -/
def terminalEntries (l : List PState) : Nat :=
  l.count .killed + l.count .exitedNaturally + l.count .errored

/-! ## Spec-modelled: signal-failure handling (spec sections 4.4 and 7) -/

/-- Modelled from the spec: how a soft-interrupt delivery attempt can end —
delivered, failed because the process had already exited (the benign
cancellation race), or failed for another platform reason. -/
inductive SignalOutcome where
  | delivered
  | failedAlreadyExited
  | failedPlatform (msg : String)
deriving DecidableEq

/-- Modelled from the spec: what the controller has accumulated — the log
lines it emitted, the errors attached to the composite result, and whether
it is still waiting for natural process exit. -/
structure ControllerRecord where
  logged : List String
  resultErrors : List String
  waitingForExit : Bool
deriving DecidableEq

/-- Modelled from the spec: the controller's reaction to a soft-interrupt
delivery outcome — an already-exited failure is benign and swallowed; any
other platform failure is logged and attached to the final result; in no
case does the reaction stop the wait for natural process exit. The concrete
controller is not among the provided sources. -/
def handleSignalOutcome (st : ControllerRecord) : SignalOutcome → ControllerRecord
  | .delivered => st
  | .failedAlreadyExited => st
  | .failedPlatform msg =>
    { st with logged := st.logged ++ [msg], resultErrors := st.resultErrors ++ [msg] }

/-! ## Spec-modelled: Wait result contract (spec sections 4.4, 6 and 8) -/

/-- Modelled from the spec: the composite result of `Wait`/`Run` — exit code,
the `killedByController` flag, and attached errors. -/
structure WaitResult where
  exitCode : Int
  killedByController : Bool
  errors : List String
deriving DecidableEq

/-- Modelled from the spec: the result of running a process to completion —
without a cancellation the result carries the process's own exit code and
`killedByController := false`; under a cancellation the controller either
sees the process comply with the soft interrupt (own exit code, not killed)
or force-kills it. The concrete `Run`/`Wait` is not among the provided
sources. -/
def runToCompletion (realExitCode : Int) (cancelled : Bool) (canInt : Bool)
    (compliesWithInterrupt : Bool) (killedStatus : Int) : WaitResult :=
  if cancelled then
    if canInt && compliesWithInterrupt then
      { exitCode := realExitCode, killedByController := false, errors := [] }
    else
      { exitCode := killedStatus, killedByController := true, errors := [] }
  else
    { exitCode := realExitCode, killedByController := false, errors := [] }

/-! ## Theorems for C1 and C2 -/

/-- C1: on Windows, `canInterrupt` returns true exactly when the `Cmd`, its
underlying `Cmd`, and its `SysProcAttr` are all non-nil and the
`CREATE_NEW_PROCESS_GROUP` creation flag (bit 9) is set in the creation
flags; in particular it returns false whenever the attribute was omitted. -/
theorem canInterrupt_spec (c : Option CmdData) :
    (canInterrupt c = true ↔
      ∃ cd a, c = some cd ∧ cd.Cmd ≠ none ∧ cd.SysProcAttr = some a ∧
        a.CreationFlags.testBit 9 = true) ∧
    (∀ cd : CmdData, cd.SysProcAttr = none → canInterrupt (some cd) = false) := by
  constructor
  · constructor
    · intro h
      match c with
      | none => simp [canInterrupt] at h
      | some cd =>
        match hc : cd.Cmd with
        | none => simp [canInterrupt, hc] at h
        | some u =>
          match ha : cd.SysProcAttr with
          | none => simp [canInterrupt, hc, ha] at h
          | some a =>
            refine ⟨cd, a, rfl, by simp [hc], ha, ?_⟩
            simp only [canInterrupt, hc, ha, CREATE_NEW_PROCESS_GROUP] at h
            have h2 : a.CreationFlags &&& 2 ^ 9 ≠ 0 := by
              simpa using h
            rw [Nat.and_two_pow] at h2
            by_contra hbit
            simp [Bool.not_eq_true] at hbit
            simp [hbit] at h2
    · rintro ⟨cd, a, rfl, hc, ha, hbit⟩
      match hcc : cd.Cmd with
      | none => exact absurd hcc hc
      | some u =>
        simp only [canInterrupt, hcc, ha, CREATE_NEW_PROCESS_GROUP]
        have : a.CreationFlags &&& 2 ^ 9 = 2 ^ 9 := by
          rw [Nat.and_two_pow, hbit]; simp
        simpa using this.symm ▸ (by norm_num : (2:Nat) ^ 9 ≠ 0)
  · intro cd ha
    simp only [canInterrupt, ha]
    cases cd.Cmd <;> rfl

/-- C1 witness: a concrete `Cmd` with the flag set is interruptible, and one
whose `SysProcAttr` was omitted is not. -/
theorem canInterrupt_spec_witness :
    canInterrupt (some { Cmd := some ⟨⟩, SysProcAttr := some ⟨0x200⟩ }) = true ∧
    canInterrupt (some { Cmd := some ⟨⟩, SysProcAttr := none }) = false := by
  constructor
  · exact (canInterrupt_spec (some { Cmd := some ⟨⟩, SysProcAttr := some ⟨0x200⟩ })).1.mpr
      ⟨{ Cmd := some ⟨⟩, SysProcAttr := some ⟨0x200⟩ }, ⟨0x200⟩, rfl, by simp, rfl, by decide⟩
  · exact (canInterrupt_spec (some { Cmd := some ⟨⟩, SysProcAttr := none })).2
      { Cmd := some ⟨⟩, SysProcAttr := none } rfl

/-- C2: `SendInterrupt` passes the console-break event `CTRL_BREAK_EVENT` and
the process's PID to the platform call; it returns an `os.SyscallError` naming
`GenerateConsoleCtrlEvent` and wrapping the platform error exactly when the
platform call errors, and returns nil (with no other effect) when it
succeeds. -/
theorem SendInterrupt_spec (gen : Nat → Nat → Option PlatformError) (proc : OsProcess) :
    SendInterrupt gen proc =
      (gen CTRL_BREAK_EVENT proc.Pid).map
        (fun e => { Syscall := "GenerateConsoleCtrlEvent", Err := e }) ∧
    ((SendInterrupt gen proc) = none ↔ gen CTRL_BREAK_EVENT proc.Pid = none) := by
  constructor
  · cases h : gen CTRL_BREAK_EVENT proc.Pid <;> simp [SendInterrupt, h]
  · cases h : gen CTRL_BREAK_EVENT proc.Pid <;> simp [SendInterrupt, h]

/-! ## Theorems for the dlog claims C8, C9, C10 -/

/-- C8: every logging operation of the split logger (Log, Logf, Logln,
LogMessage, StdLogger) is dispatched to the `errLog` sub-logger exactly when
the level is `LogLevelError` and to the `outLog` sub-logger for every other
level, and `WithField` applies the same key/value field to both
sub-loggers. -/
theorem splitLogger_dispatch (st : SplitState) (level : Nat) (args : List String)
    (format : String) (message : String) (k v : String) :
    ((splitLog st level args).errLog.events =
        st.errLog.events ++ (if level = LogLevelError then [SEvent.log level args] else []) ∧
      (splitLog st level args).outLog.events =
        st.outLog.events ++ (if level = LogLevelError then [] else [SEvent.log level args])) ∧
    ((splitLogf st level format args).errLog.events =
        st.errLog.events ++
          (if level = LogLevelError then [SEvent.logf level format args] else []) ∧
      (splitLogf st level format args).outLog.events =
        st.outLog.events ++
          (if level = LogLevelError then [] else [SEvent.logf level format args])) ∧
    ((splitLogln st level args).errLog.events =
        st.errLog.events ++ (if level = LogLevelError then [SEvent.logln level args] else []) ∧
      (splitLogln st level args).outLog.events =
        st.outLog.events ++ (if level = LogLevelError then [] else [SEvent.logln level args])) ∧
    ((splitLogMessage st level message).errLog.events =
        st.errLog.events ++ (if level = LogLevelError then [SEvent.log level [message]] else []) ∧
      (splitLogMessage st level message).outLog.events =
        st.outLog.events ++
          (if level = LogLevelError then [] else [SEvent.log level [message]])) ∧
    ((splitStdLogger st level).errLog.events =
        st.errLog.events ++ (if level = LogLevelError then [SEvent.stdLogger level] else []) ∧
      (splitStdLogger st level).outLog.events =
        st.outLog.events ++ (if level = LogLevelError then [] else [SEvent.stdLogger level])) ∧
    ((splitWithField st k v).outLog = tlWithField st.outLog k v ∧
      (splitWithField st k v).errLog = tlWithField st.errLog k v) := by
  by_cases h : level = LogLevelError <;>
    simp [splitLog, splitLogf, splitLogln, splitLogMessage, splitStdLogger, splitWithField,
      atSel, levelLogger, tlLog, tlLogf, tlLogln, tlStdLogger, h]

/-- C9: the dlog-to-logrus level conversion maps each of the five defined
levels to the corresponding logrus level without reaching the panic branch
(Error→ErrorLevel, Warn→WarnLevel, Info→InfoLevel, Debug→DebugLevel,
Trace→TraceLevel); for any level greater than `LogLevelTrace` it reaches the
panic branch (embedded as `none`), and that branch is unreachable when the
level is one of the five defined constants. -/
theorem logrusLevel_spec :
    (logrusLevel LogLevelError = some logrusErrorLevel ∧
      logrusLevel LogLevelWarn = some logrusWarnLevel ∧
      logrusLevel LogLevelInfo = some logrusInfoLevel ∧
      logrusLevel LogLevelDebug = some logrusDebugLevel ∧
      logrusLevel LogLevelTrace = some logrusTraceLevel) ∧
    (∀ level : Nat, LogLevelTrace < level → logrusLevel level = none) ∧
    (∀ level : Nat,
      level = LogLevelError ∨ level = LogLevelWarn ∨ level = LogLevelInfo ∨
        level = LogLevelDebug ∨ level = LogLevelTrace →
      (logrusLevel level).isSome = true) := by
  refine ⟨by decide, ?_, ?_⟩
  · intro level h
    unfold logrusLevel
    rw [if_pos h]
  · rintro level (rfl | rfl | rfl | rfl | rfl) <;> decide

/-- C9 witness: level 7 (not a defined constant) reaches the panic branch,
while `LogLevelInfo` does not. -/
theorem logrusLevel_spec_witness :
    logrusLevel 7 = none ∧ (logrusLevel LogLevelInfo).isSome = true :=
  ⟨logrusLevel_spec.2.1 7 (by decide),
    logrusLevel_spec.2.2 LogLevelInfo (Or.inr (Or.inr (Or.inl rfl)))⟩

/-- C10: `MaxLevel` is a left inverse of the dlog-to-logrus conversion — for
every dlog level `l` in Error..Trace, a wrapper whose underlying logrus
logger (or entry's parent logger) has its level set to `logrusLevel l`
reports `MaxLevel = l`. -/
theorem MaxLevel_left_inverse (l : Nat) (h : l ≤ LogLevelTrace) (v : Nat)
    (hv : logrusLevel l = some v) :
    MaxLevel (.logger v) = some l ∧ MaxLevel (.entry v) = some l := by
  have h4 : l ≤ 4 := h
  interval_cases l <;>
    · simp only [logrusLevel, dlogLevel2logrusLevel, LogLevelTrace, logrusErrorLevel,
        logrusWarnLevel, logrusInfoLevel, logrusDebugLevel, logrusTraceLevel] at hv
      norm_num at hv
      subst hv
      decide

/-- C10 witness: setting the underlying logrus logger to
`logrusLevel LogLevelDebug = DebugLevel` makes `MaxLevel` report
`LogLevelDebug`. -/
theorem MaxLevel_left_inverse_witness :
    MaxLevel (.logger logrusDebugLevel) = some LogLevelDebug ∧
    MaxLevel (.entry logrusDebugLevel) = some LogLevelDebug :=
  MaxLevel_left_inverse LogLevelDebug (by decide) logrusDebugLevel (by decide)

/-! ## Theorems for the spec-modelled claims C4, C5, C6, C7 -/

/-- C6: a signal-delivery failure caused by the process having already
exited is swallowed (nothing logged, nothing attached to the result), a
platform failure for any other reason is logged and attached to the final
result, and in no case does the reaction stop the wait for process exit. -/
theorem signal_failure_policy (st : ControllerRecord) (msg : String) :
    handleSignalOutcome st .failedAlreadyExited = st ∧
    (handleSignalOutcome st .failedAlreadyExited).resultErrors = st.resultErrors ∧
    (handleSignalOutcome st (.failedPlatform msg)).resultErrors = st.resultErrors ++ [msg] ∧
    (handleSignalOutcome st (.failedPlatform msg)).logged = st.logged ++ [msg] ∧
    (∀ o : SignalOutcome, (handleSignalOutcome st o).waitingForExit = st.waitingForExit) := by
  refine ⟨rfl, rfl, rfl, rfl, ?_⟩
  intro o
  cases o <;> rfl

/-- C7: for every process run to completion without a cancellation, the
composite result carries exactly the process's real exit code and
`killedByController = false`. -/
theorem wait_without_cancellation (realExitCode killedStatus : Int)
    (canInt compliesWithInterrupt : Bool) :
    (runToCompletion realExitCode false canInt compliesWithInterrupt killedStatus).exitCode =
      realExitCode ∧
    (runToCompletion realExitCode false canInt compliesWithInterrupt
        killedStatus).killedByController = false := by
  simp [runToCompletion]

/-- C4: in every reachable state of a started process's handle, if `Wait()`
has returned then the process has exited and both stdio-relay tasks have
finished draining — `Wait` never reports completion while any relay task is
still running. -/
theorem wait_joins_relays (s : HandleState) (hr : HandleReachable s) :
    s.waitReturned = true →
    s.processExited = true ∧ s.stdoutRelayDone = true ∧ s.stderrRelayDone = true := by
  induction hr with
  | init => intro hw; simp [handleInit] at hw
  | step hr hs ih =>
    intro hw
    cases hs with
    | processExit =>
      obtain ⟨h1, h2, h3⟩ := ih (by simpa using hw)
      exact ⟨rfl, h2, h3⟩
    | stdoutDone =>
      obtain ⟨h1, h2, h3⟩ := ih (by simpa using hw)
      exact ⟨h1, rfl, h3⟩
    | stderrDone =>
      obtain ⟨h1, h2, h3⟩ := ih (by simpa using hw)
      exact ⟨h1, h2, rfl⟩
    | waitReturn h1 h2 h3 =>
      exact ⟨h1, h2, h3⟩

/-- C4 witness: the state reached by process exit, both relay completions and
then `Wait` returning satisfies the join property. -/
theorem wait_joins_relays_witness :
    ({ processExited := true, stdoutRelayDone := true, stderrRelayDone := true,
        waitReturned := true } : HandleState).processExited = true ∧
    ({ processExited := true, stdoutRelayDone := true, stderrRelayDone := true,
        waitReturned := true } : HandleState).stdoutRelayDone = true ∧
    ({ processExited := true, stdoutRelayDone := true, stderrRelayDone := true,
        waitReturned := true } : HandleState).stderrRelayDone = true :=
  wait_joins_relays _
    (HandleReachable.step
      (HandleReachable.step
        (HandleReachable.step
          (HandleReachable.step HandleReachable.init (HandleStep.processExit handleInit))
          (HandleStep.stdoutDone
            { processExited := true, stdoutRelayDone := false, stderrRelayDone := false,
              waitReturned := false }))
        (HandleStep.stderrDone
          { processExited := true, stdoutRelayDone := true, stderrRelayDone := false,
            waitReturned := false }))
      (HandleStep.waitReturn
        { processExited := true, stdoutRelayDone := true, stderrRelayDone := true,
          waitReturned := false } rfl rfl rfl))
    rfl

/-- Each allowed lifecycle transition consumes the entry budgets: entering a
state decrements the corresponding bound, and the bounds never increase. -/
theorem pstep_entry_bounds : ∀ s b : PState, pstep s b = true →
    (if b = PState.interruptSent then 1 else 0) + bInt b ≤ bInt s ∧
    (if b = PState.killed then 1 else 0) + bKill b ≤ bKill s ∧
    ((if b = PState.killed then 1 else 0) + (if b = PState.exitedNaturally then 1 else 0) +
      (if b = PState.errored then 1 else 0)) + bTerm b ≤ bTerm s ∧
    (if b = PState.reaped then 1 else 0) + bReap b ≤ bReap s := by
  decide

/-- Along any lifecycle history starting at `s`, the number of entries into
`interruptSent`, `killed`, the terminal states, and `reaped` is bounded by
the corresponding budget of `s`. -/
theorem path_entry_counts : ∀ (tr : List PState) (s : PState), ValidPath (s :: tr) →
    tr.count PState.interruptSent ≤ bInt s ∧ tr.count PState.killed ≤ bKill s ∧
    terminalEntries tr ≤ bTerm s ∧ tr.count PState.reaped ≤ bReap s := by
  intro tr
  induction tr with
  | nil =>
    intro s _
    simp [terminalEntries]
  | cons b tr' ih =>
    intro s h
    rw [ValidPath, List.chain'_cons] at h
    obtain ⟨hsb, hrest⟩ := h
    obtain ⟨i1, i2, i3, i4⟩ := ih b hrest
    obtain ⟨e1, e2, e3, e4⟩ := pstep_entry_bounds s b hsb
    cases b <;> simp_all [List.count_cons, terminalEntries, bInt, bKill, bTerm, bReap] <;> omega

/-- In a chain every element after the head has a predecessor in the chain
related to it. -/
theorem chain'_pred {α : Type} {R : α → α → Prop} (y : α) :
    ∀ (x : α) (l : List α), List.Chain' R (x :: l) → y ∈ l → ∃ z, z ∈ x :: l ∧ R z y := by
  intro x l
  induction l generalizing x with
  | nil =>
    intro _ hy
    cases hy
  | cons a t ih =>
    intro h hy
    rw [List.chain'_cons] at h
    rcases List.mem_cons.mp hy with rfl | hy'
    · exact ⟨x, List.mem_cons_self x _, h.1⟩
    · obtain ⟨z, hz, hR⟩ := ih a h.2 hy'
      exact ⟨z, List.mem_cons_of_mem x hz, hR⟩

/-- C5: under any interleaving of natural-exit detection and
controller-driven kill (any valid lifecycle history from `running`), there
is at most one entry into `interruptSent`, at most one into `killed`, at
most one into a terminal state, and at most one release of OS resources
(`reaped`); a history that reaches `reaped` entered exactly one terminal
state. -/
theorem escalation_terminal_once (tr : List PState)
    (h : ValidPath (PState.running :: tr)) :
    tr.count PState.interruptSent ≤ 1 ∧
    tr.count PState.killed ≤ 1 ∧
    terminalEntries tr ≤ 1 ∧
    tr.count PState.reaped ≤ 1 ∧
    (PState.reaped ∈ tr → terminalEntries tr = 1) := by
  have hc := path_entry_counts tr PState.running h
  simp only [bInt, bKill, bTerm, bReap] at hc
  refine ⟨hc.1, hc.2.1, hc.2.2.1, hc.2.2.2, ?_⟩
  intro hmem
  obtain ⟨z, hz, hstep⟩ := chain'_pred PState.reaped PState.running tr h hmem
  have hzterm : z = PState.killed ∨ z = PState.exitedNaturally ∨ z = PState.errored := by
    cases z <;> simp_all [pstep]
  have hzin : z ∈ tr := by
    rcases List.mem_cons.mp hz with h1 | h1
    · rcases hzterm with rfl | rfl | rfl <;> exact absurd h1 (by decide)
    · exact h1
  have hterm1 : 1 ≤ terminalEntries tr := by
    unfold terminalEntries
    rcases hzterm with rfl | rfl | rfl <;>
      · have := List.count_pos_iff.mpr hzin
        omega
  have hterm2 := hc.2.2.1
  omega

/-- C5 witness: the history `running → interruptSent → killed → reaped` has
exactly one interrupt, one kill, one terminal entry and one reap. -/
theorem escalation_terminal_once_witness :
    [PState.interruptSent, PState.killed, PState.reaped].count PState.interruptSent ≤ 1 ∧
    [PState.interruptSent, PState.killed, PState.reaped].count PState.killed ≤ 1 ∧
    terminalEntries [PState.interruptSent, PState.killed, PState.reaped] ≤ 1 ∧
    [PState.interruptSent, PState.killed, PState.reaped].count PState.reaped ≤ 1 ∧
    (PState.reaped ∈ [PState.interruptSent, PState.killed, PState.reaped] →
      terminalEntries [PState.interruptSent, PState.killed, PState.reaped] = 1) :=
  escalation_terminal_once [PState.interruptSent, PState.killed, PState.reaped]
    (List.Chain.cons rfl (List.Chain.cons rfl (List.Chain.cons rfl List.Chain.nil)))

/-! ## Theorems for C3 (caller attribution) -/

/-- C3 counterexample: the call-site attribution is not realized by an
explicit frame-skip count — there is no fixed skip `k` such that `getCaller`
always returns the frame at position `k`; on two stacks of equal shape the
selected position differs according to whether the first frame's function
name carries the dlog package name. -/
theorem caller_fixed_skip_refuted :
    ¬ ∃ k : Nat, ∀ stack : List Frame, getCaller stack = stack[k]? := by
  rintro ⟨k, hk⟩
  have h1 := hk [⟨"github.com/telepresenceio/dlib/v2/dlog.Info"⟩, ⟨"main.main"⟩,
    ⟨"runtime.main"⟩]
  have h2 := hk [⟨"main.run"⟩, ⟨"main.main"⟩, ⟨"runtime.main"⟩]
  rw [show getCaller [⟨"github.com/telepresenceio/dlib/v2/dlog.Info"⟩, ⟨"main.main"⟩,
    ⟨"runtime.main"⟩] = some ⟨"main.main"⟩ from by decide] at h1
  rw [show getCaller [⟨"main.run"⟩, ⟨"main.main"⟩, ⟨"runtime.main"⟩] = some ⟨"main.run"⟩
    from by decide] at h2
  match k with
  | 0 => exact absurd h1 (by decide)
  | 1 => exact absurd h2 (by decide)
  | 2 => exact absurd h1 (by decide)
  | n + 3 =>
    simp only [List.getElem?_cons_succ, List.getElem?_nil] at h1
    exact Option.noConfusion h1

/-- When `getCaller` returns a frame, that frame is outside both the logrus
and the dlog packages, every frame before it in the stack is inside one of
them, and it is never the stack's final frame. -/
theorem getCaller_characterization (stack : List Frame) (f : Frame)
    (h : getCaller stack = some f) :
    (HasPrefixGo f.Function logrusPackageDot = false ∧
      HasPrefixGo f.Function dlogPackageDot = false) ∧
    ∃ pre post, stack = pre ++ f :: post ∧ post ≠ [] ∧
      ∀ g ∈ pre, (HasPrefixGo g.Function logrusPackageDot ||
        HasPrefixGo g.Function dlogPackageDot) = true := by
  induction stack with
  | nil => simp [getCaller] at h
  | cons a rest ih =>
    cases rest with
    | nil => simp [getCaller] at h
    | cons b rest' =>
      simp only [getCaller] at h
      by_cases h1 : HasPrefixGo a.Function logrusPackageDot
      · rw [if_pos h1] at h
        obtain ⟨hf, pre, post, heq, hne, hall⟩ := ih h
        refine ⟨hf, a :: pre, post, by simp [heq], hne, ?_⟩
        intro g hg
        rcases List.mem_cons.mp hg with rfl | hg'
        · simp [h1]
        · exact hall g hg'
      · rw [if_neg h1] at h
        by_cases h2 : HasPrefixGo a.Function dlogPackageDot
        · rw [if_pos h2] at h
          obtain ⟨hf, pre, post, heq, hne, hall⟩ := ih h
          refine ⟨hf, a :: pre, post, by simp [heq], hne, ?_⟩
          intro g hg
          rcases List.mem_cons.mp hg with rfl | hg'
          · simp [h2]
          · exact hall g hg'
        · rw [if_neg h2] at h
          have haf : a = f := Option.some.inj h
          subst haf
          refine ⟨⟨?_, ?_⟩, [], b :: rest', rfl, by simp, by simp⟩
          · simpa using h1
          · simpa using h2

/-- C3 amended: the logging facade's call-site attribution relies on stack
introspection that matches frames against the logrus and dlog package-name
constants — the hook recomputes the caller exactly when logrus attributed
the entry to a dlog function, and `getCaller` walks the stack skipping
every frame inside those two packages and returns the first frame outside
them (nil if no such frame is found before the final frame). -/
theorem caller_attribution_package_scan (stack : List Frame) (f : Frame)
    (h : getCaller stack = some f) :
    (HasPrefixGo f.Function logrusPackageDot = false ∧
      HasPrefixGo f.Function dlogPackageDot = false) ∧
    (∃ pre post, stack = pre ++ f :: post ∧ post ≠ [] ∧
      ∀ g ∈ pre, (HasPrefixGo g.Function logrusPackageDot ||
        HasPrefixGo g.Function dlogPackageDot) = true) ∧
    (∀ entry : LogrusEntry, ∀ c : Frame, entry.Caller = some c →
      HasPrefixGo c.Function dlogPackageDot = true →
      logrusFixCallerHookFire stack entry = { Caller := getCaller stack }) := by
  obtain ⟨hf, hdec⟩ := getCaller_characterization stack f h
  refine ⟨hf, hdec, ?_⟩
  intro entry c hc hpre
  obtain ⟨oc⟩ := entry
  have hoc : oc = some c := hc
  subst hoc
  simp [logrusFixCallerHookFire, hpre]

/-- C3 amended witness: on the stack [dlog.Info, main.main, runtime.main]
the attribution selects `main.main`, skipping the dlog wrapper frame. -/
theorem caller_attribution_package_scan_witness :
    (HasPrefixGo (Frame.mk "main.main").Function logrusPackageDot = false ∧
      HasPrefixGo (Frame.mk "main.main").Function dlogPackageDot = false) ∧
    (∃ pre post, [Frame.mk "github.com/telepresenceio/dlib/v2/dlog.Info",
        Frame.mk "main.main", Frame.mk "runtime.main"] =
        pre ++ Frame.mk "main.main" :: post ∧ post ≠ [] ∧
      ∀ g ∈ pre, (HasPrefixGo g.Function logrusPackageDot ||
        HasPrefixGo g.Function dlogPackageDot) = true) ∧
    (∀ entry : LogrusEntry, ∀ c : Frame, entry.Caller = some c →
      HasPrefixGo c.Function dlogPackageDot = true →
      logrusFixCallerHookFire [Frame.mk "github.com/telepresenceio/dlib/v2/dlog.Info",
        Frame.mk "main.main", Frame.mk "runtime.main"] entry =
        { Caller := getCaller [Frame.mk "github.com/telepresenceio/dlib/v2/dlog.Info",
            Frame.mk "main.main", Frame.mk "runtime.main"] }) :=
  caller_attribution_package_scan
    [Frame.mk "github.com/telepresenceio/dlib/v2/dlog.Info", Frame.mk "main.main",
      Frame.mk "runtime.main"]
    (Frame.mk "main.main") (by decide)
